import Mathlib

/-!
Verification development for the `kv` command-line key/value store
(`src/main.rs`).  The program keeps a `KVStore { kvs, cmds, hooks }`
persisted as a JSON file, supports named shell-command hooks triggered on
get/set/del of specific keys, and a dispatcher that translates one
resolved CLI request into load / mutate / save / run-hooks steps.

The embedding below is a shallow model of that file:
* `Json` is the serde data model (only the fragments the program uses);
  the byte layer of `serde_json` (printing/parsing text) is treated as
  the external collaborator, so a file's contents are an `Option Json`
  where `none` stands for a missing, empty, truncated or otherwise
  unparseable file.
* `HashMap<String, String>` is modelled as an association list `KV`;
  decoding rebuilds the map by repeated insertion (`set_key`), exactly
  as serde's map visitor inserts entry by entry, so decoded maps always
  have distinct keys, and insertion (`set_key`) mirrors
  `HashMap::insert` (overwrite in place, else add).
* `print_err` in the source prints and then calls
  `std::process::exit(1)`; this is modelled by the `ExitStatus.failure`
  outcome together with the fact that nothing after the `print_err`
  call happens (no push, no write).
* each `get_store()` call in the source is a repository load and each
  `write_file` a repository save; events are tagged with the component
  that performs them (`run` itself = dispatcher; `run_hooks`,
  `add_hook`, `rm_hook` = hook engine).
-/

namespace Kv

/-- Operation kind: classifies both requests and hook triggers
(mirrors `enum OpType { Get, Set, Del }`). -/
inductive OpType where
  | Get
  | Set
  | Del
deriving DecidableEq

/-- A hook binds an operation kind and a key to a named command
(mirrors `struct Hook`). -/
structure Hook where
  name : String
  cmd_name : String
  run_on : OpType
  key : String
deriving DecidableEq

/-- Association-list model of `HashMap<String, String>`
(mirrors `type KV = HashMap<String, String>`). -/
abbrev KV := List (String × String)

/-- The persisted aggregate root (mirrors `struct KVStore`). -/
structure KVStore where
  kvs : KV
  cmds : KV
  hooks : List Hook
deriving DecidableEq

/-- The keys of a map, in order. -/
def keys (m : KV) : List String := m.map Prod.fst

/-- Mirrors `impl Display for OpType`: the three canonical lowercase
tokens. -/
def OpType.toString : OpType → String
  | .Get => "get"
  | .Set => "set"
  | .Del => "del"

/-- Mirrors `impl FromStr for OpType`: parse the three tokens, reject
everything else with the error string of the source. -/
def OpType.from_str (s : String) : Except String OpType :=
  match s with
  | "get" => .ok .Get
  | "set" => .ok .Set
  | "del" => .ok .Del
  | _ => .error "No match found!"

/-- Mirrors `get_key`: `map.get(&s).cloned()`; on an association list
with distinct keys `List.lookup` is exactly `HashMap::get`. -/
def get_key (s : String) (map : KV) : Option String :=
  map.lookup s

/-- Mirrors `set_key` (`map.insert`): overwrite the binding in place if
the key is present, otherwise add the new binding. -/
def set_key (k v : String) (map : KV) : KV :=
  if map.any (fun p => p.1 == k) then
    map.map (fun p => if p.1 == k then (k, v) else p)
  else
    map ++ [(k, v)]

/-- Mirrors `del_key` (`map.remove`): the removed value (if any) and the
map without the binding for `k`. -/
def del_key (k : String) (map : KV) : Option String × KV :=
  (map.lookup k, map.filter (fun p => !(p.1 == k)))

/-- The serde data model, restricted to the fragments `KVStore`
serialization uses: strings, objects and arrays. -/
inductive Json where
  | str : String → Json
  | obj : List (String × Json) → Json
  | arr : List Json → Json

/-- Serde serialization of `OpType` (a plain enum: the variant name). -/
def encodeOpType : OpType → Json
  | .Get => .str "Get"
  | .Set => .str "Set"
  | .Del => .str "Del"

/-- Serde serialization of a `Hook` struct: one object with its four
fields. -/
def encodeHook (h : Hook) : Json :=
  .obj [("name", .str h.name), ("cmd_name", .str h.cmd_name),
        ("run_on", encodeOpType h.run_on), ("key", .str h.key)]

/-- Serde serialization of a `HashMap<String, String>`: an object with
one member per entry. -/
def encodeKV (m : KV) : Json :=
  .obj (m.map (fun p => (p.1, Json.str p.2)))

/-- Serde serialization of the whole `KVStore` (what `write_file`
persists via `serde_json::to_string_pretty`). -/
def encodeStore (s : KVStore) : Json :=
  .obj [("kvs", encodeKV s.kvs), ("cmds", encodeKV s.cmds),
        ("hooks", .arr (s.hooks.map encodeHook))]

/-- Field lookup in a JSON object (first member with the given name). -/
def jlookup (k : String) : List (String × Json) → Option Json
  | [] => none
  | (k', v) :: rest => if k' = k then some v else jlookup k rest

/-- Decode a JSON string. -/
def decodeStr : Json → Option String
  | .str s => some s
  | _ => none

/-- Decode an `OpType` (serde external tagging: the variant name). -/
def decodeOpType : Json → Option OpType
  | .str "Get" => some OpType.Get
  | .str "Set" => some OpType.Set
  | .str "Del" => some OpType.Del
  | _ => none

/-- Decode one `Hook` object: all four fields required, as serde derive
requires them. -/
def decodeHook : Json → Option Hook
  | .obj fields =>
    match jlookup "name" fields, jlookup "cmd_name" fields,
          jlookup "run_on" fields, jlookup "key" fields with
    | some jn, some jc, some jr, some jk =>
      match decodeStr jn, decodeStr jc, decodeOpType jr, decodeStr jk with
      | some n, some c, some r, some k => some ⟨n, c, r, k⟩
      | _, _, _, _ => none
    | _, _, _, _ => none
  | _ => none

/-- Decode the members of a map object entry by entry, inserting each
into the accumulated map exactly as serde's map visitor calls
`HashMap::insert` for each entry. -/
def decodeKVfields : List (String × Json) → KV → Option KV
  | [], acc => some acc
  | (k, v) :: rest, acc =>
    match decodeStr v with
    | some s => decodeKVfields rest (set_key k s acc)
    | none => none

/-- Decode a `HashMap<String, String>`. -/
def decodeKV : Json → Option KV
  | .obj fields => decodeKVfields fields []
  | _ => none

/-- Decode a `Vec<Hook>` element by element. -/
def decodeHookList : List Json → Option (List Hook)
  | [] => some []
  | j :: rest =>
    match decodeHook j with
    | some h => (decodeHookList rest).map (fun l => h :: l)
    | none => none

/-- Decode a hooks array. -/
def decodeHooks : Json → Option (List Hook)
  | .arr l => decodeHookList l
  | _ => none

/-- Decode a whole `KVStore`: all three fields required (the struct
derives `Deserialize` with no defaults). -/
def decodeStore : Json → Option KVStore
  | .obj fields =>
    match jlookup "kvs" fields, jlookup "cmds" fields,
          jlookup "hooks" fields with
    | some jk, some jc, some jh =>
      match decodeKV jk, decodeKV jc, decodeHooks jh with
      | some kvs, some cmds, some hooks => some ⟨kvs, cmds, hooks⟩
      | _, _, _ => none
    | _, _, _ => none
  | _ => none

/-- Mirrors `get_store`: `serde_json::from_reader` on the backing file,
`Default::default()` (the empty store) on any error.  The file contents
are `none` when the file is missing, empty, truncated or otherwise
unparseable at the byte layer. -/
def get_store (file : Option Json) : KVStore :=
  match file with
  | some j =>
    match decodeStore j with
    | some s => s
    | none => ⟨[], [], []⟩
  | none => ⟨[], [], []⟩

/-- Which component performs a repository event: `run` itself is the
dispatcher; `run_hooks`, `add_hook` and `rm_hook` are the hook engine. -/
inductive Component where
  | dispatcher
  | engine
deriving DecidableEq

/-- A repository event: a `get_store()` call (load) or a `write_file`
call (save). -/
inductive RepoAction where
  | load
  | save
deriving DecidableEq

/-- A tagged repository event. -/
abbrev RepoEvent := Component × RepoAction

/-- Process outcome: `print_err` prints and exits with status 1
(`failure`); every other path ends with status 0 (`normal`). -/
inductive ExitStatus where
  | normal
  | failure
deriving DecidableEq

/-- Observable output and side effects of one invocation, in order. -/
inductive Effect where
  | printRes : Option String → Effect
  | dispatch : String → String → Effect
  | badHook : String → Effect
  | cmdMissing : String → Effect
  | errPrinted : String → Effect
  | aligned : List String → Effect
  | line : String → Effect
deriving DecidableEq

/-- The outcome of one invocation: file contents afterwards, repository
events, printed/dispatched output, and the process exit status. -/
structure RunResult where
  file : Option Json
  repo : List RepoEvent
  output : List Effect
  exit : ExitStatus

/-- What `list` was asked to enumerate (clap restricts the argument to
these three values, or it may be absent). -/
inductive ListWhat where
  | keys
  | cmds
  | hooks
deriving DecidableEq

/-- A resolved operation request, as clap hands it to `run` (exactly one
subcommand matches). -/
inductive Request where
  | get : String → Request
  | set : String → String → Request
  | del : String → Request
  | list : Option ListWhat → Request
  | cmdRun : String → Request
  | cmdAdd : String → String → Request
  | cmdDelHook : String → Request
  | cmdAddHook : String → String → OpType → String → Request
deriving DecidableEq

/-- The message of the duplicate-hook `print_err` in `add_hook`. -/
def dupHookMsg (name : String) : String :=
  "Error! " ++ name ++ " already exists. To delete it try\n kv cmd del-hook " ++ name

/-- The message of the missing-hook `print_err` in `rm_hook`. -/
def missingHookMsg (name : String) : String :=
  "Error! Hook " ++ name ++ " does not exist!"

/-- The body of the `for hook in hooks_to_run` loop of `run_hooks`: each
matched hook either dispatches its command or prints the bad-hook
diagnostic. -/
def runHookLoop (cmds : KV) : List Hook → List Effect
  | [] => []
  | hook :: rest =>
    (match get_key hook.cmd_name cmds with
     | some cmd => Effect.dispatch hook.cmd_name cmd
     | none => Effect.badHook hook.name) :: runHookLoop cmds rest

/-- Mirrors `run_hooks`: load the store fresh from the file, filter the
hooks whose `run_on` and `key` match, and run the loop over the matches
in order.  Returns the engine's repository events and the effects. -/
def run_hooks (file : Option Json) (key_name : String) (current_op : OpType) :
    List RepoEvent × List Effect :=
  let kvstore := get_store file
  let hooks_to_run :=
    kvstore.hooks.filter (fun x => x.run_on == current_op && x.key == key_name)
  ([(Component.engine, RepoAction.load)], runHookLoop kvstore.cmds hooks_to_run)

/-- Mirrors `add_hook`: load fresh; if a hook with the name exists,
`print_err` (message, exit 1, nothing else happens); otherwise push the
new hook and `write_file`. -/
def add_hook (file : Option Json) (name cmd_name : String) (run_on : OpType)
    (key : String) : Option Json × List RepoEvent × List Effect × ExitStatus :=
  let kvstore := get_store file
  if 0 < (kvstore.hooks.filter (fun x => x.name == name)).length then
    (file, [(Component.engine, RepoAction.load)],
     [Effect.errPrinted (dupHookMsg name)], ExitStatus.failure)
  else
    let kvstore' : KVStore :=
      { kvstore with hooks := kvstore.hooks ++ [⟨name, cmd_name, run_on, key⟩] }
    (some (encodeStore kvstore'),
     [(Component.engine, RepoAction.load), (Component.engine, RepoAction.save)],
     [], ExitStatus.normal)

/-- Mirrors `rm_hook`: load fresh; remove the first hook with the name
and `write_file`, or `print_err` (message, exit 1, no write) if none
exists. -/
def rm_hook (file : Option Json) (name : String) :
    Option Json × List RepoEvent × List Effect × ExitStatus :=
  let kvstore := get_store file
  match kvstore.hooks.findIdx? (fun x => x.name == name) with
  | some pos =>
    let kvstore' : KVStore := { kvstore with hooks := kvstore.hooks.eraseIdx pos }
    (some (encodeStore kvstore'),
     [(Component.engine, RepoAction.load), (Component.engine, RepoAction.save)],
     [], ExitStatus.normal)
  | none =>
    (file, [(Component.engine, RepoAction.load)],
     [Effect.errPrinted (missingHookMsg name)], ExitStatus.failure)

/-- Rows of the keys table printed by `list` (closure `print_keys`). -/
def keysRows (s : KVStore) : List String :=
  "Key\t--\tValue" :: s.kvs.map (fun p => p.1 ++ "\t--\t" ++ p.2)

/-- Rows of the commands table printed by `list` (closure `print_cmds`). -/
def cmdsRows (s : KVStore) : List String :=
  "Key\t--\tValue" :: s.cmds.map (fun p => p.1 ++ "\t--\t" ++ p.2)

/-- Rows of the hooks table printed by `list` (closure `print_hooks`). -/
def hooksRows (s : KVStore) : List String :=
  "Hook Name\t--\tCmd Name\t--\tTrigger\t--\tKey" ::
    s.hooks.map (fun h =>
      h.name ++ "\t--\t" ++ h.cmd_name ++ "\t--\t" ++ h.run_on.toString
        ++ "\t--\t" ++ h.key)

/-- The output of the `list` branch for each argument value. -/
def listOutput (s : KVStore) : Option ListWhat → List Effect
  | some ListWhat.keys => [Effect.aligned (keysRows s)]
  | some ListWhat.cmds => [Effect.aligned (cmdsRows s)]
  | some ListWhat.hooks => [Effect.aligned (hooksRows s)]
  | none =>
    [Effect.aligned (keysRows s), Effect.line "-------------------",
     Effect.aligned (cmdsRows s), Effect.line "-------------------",
     Effect.aligned (hooksRows s)]

/-- Mirrors `run`, the request dispatcher: one `get_store()` at entry,
then the branch of the matched subcommand.  The `list` branch performs
its own second `get_store()` exactly as the source does; `set` and `del`
call `write_file` before triggering hooks, so `run_hooks` reads the file
that now holds the saved mutated store. -/
def run (file : Option Json) (req : Request) : RunResult :=
  let kvstore := get_store file
  match req with
  | .get key =>
    let value := get_key key kvstore.kvs
    let he := run_hooks file key OpType.Get
    ⟨file, (Component.dispatcher, RepoAction.load) :: he.1,
     Effect.printRes value :: he.2, ExitStatus.normal⟩
  | .set key val =>
    let kvstore' : KVStore := { kvstore with kvs := set_key key val kvstore.kvs }
    let file' := some (encodeStore kvstore')
    let he := run_hooks file' key OpType.Set
    ⟨file',
     (Component.dispatcher, RepoAction.load)
       :: (Component.dispatcher, RepoAction.save) :: he.1,
     he.2, ExitStatus.normal⟩
  | .del key =>
    let vm := del_key key kvstore.kvs
    let kvstore' : KVStore := { kvstore with kvs := vm.2 }
    let file' := some (encodeStore kvstore')
    let he := run_hooks file' key OpType.Del
    ⟨file',
     (Component.dispatcher, RepoAction.load)
       :: (Component.dispatcher, RepoAction.save) :: he.1,
     Effect.printRes vm.1 :: he.2, ExitStatus.normal⟩
  | .list what =>
    let kvstore2 := get_store file
    ⟨file,
     [(Component.dispatcher, RepoAction.load),
      (Component.dispatcher, RepoAction.load)],
     listOutput kvstore2 what, ExitStatus.normal⟩
  | .cmdRun name =>
    match get_key name kvstore.cmds with
    | some v =>
      ⟨file, [(Component.dispatcher, RepoAction.load)],
       [Effect.dispatch name v], ExitStatus.normal⟩
    | none =>
      ⟨file, [(Component.dispatcher, RepoAction.load)],
       [Effect.cmdMissing name], ExitStatus.normal⟩
  | .cmdAdd name val =>
    let kvstore' : KVStore := { kvstore with cmds := set_key name val kvstore.cmds }
    ⟨some (encodeStore kvstore'),
     [(Component.dispatcher, RepoAction.load),
      (Component.dispatcher, RepoAction.save)],
     [], ExitStatus.normal⟩
  | .cmdDelHook name =>
    let r := rm_hook file name
    ⟨r.1, (Component.dispatcher, RepoAction.load) :: r.2.1, r.2.2.1, r.2.2.2⟩
  | .cmdAddHook name cmdName trigger key =>
    let r := add_hook file name cmdName trigger key
    ⟨r.1, (Component.dispatcher, RepoAction.load) :: r.2.1, r.2.2.1, r.2.2.2⟩

/-- Number of loads the dispatcher itself performs in a result's
repository trace. -/
def dispatcherLoads (r : RunResult) : Nat :=
  (r.repo.filter (fun e => e.1 == Component.dispatcher && e.2 == RepoAction.load)).length

/-- Total number of saves (by any component) in a result's repository
trace. -/
def saveCount (r : RunResult) : Nat :=
  (r.repo.filter (fun e => e.2 == RepoAction.save)).length

/-- Whether a request is a listing request. -/
def Request.isList : Request → Bool
  | .list _ => true
  | _ => false

/-- Whether a request is a pure read (Get, RunCommand, or a listing). -/
def Request.isPureRead : Request → Bool
  | .get _ => true
  | .list _ => true
  | .cmdRun _ => true
  | _ => false

/-- The store mutated by the `set` branch of `run`. -/
def mutatedSet (s : KVStore) (k v : String) : KVStore :=
  { s with kvs := set_key k v s.kvs }

/-- The store mutated by the `del` branch of `run`. -/
def mutatedDel (s : KVStore) (k : String) : KVStore :=
  { s with kvs := (del_key k s.kvs).2 }

/-- The store mutated by the `cmd add` branch of `run`. -/
def mutatedCmdAdd (s : KVStore) (n val : String) : KVStore :=
  { s with cmds := set_key n val s.cmds }

/-- Inserting a key that is absent appends the new binding. -/
theorem set_key_notmem (k v : String) (m : KV) (h : k ∉ keys m) :
    set_key k v m = m ++ [(k, v)] := by
  unfold set_key
  have hany : m.any (fun p => p.1 == k) = false := by
    rw [List.any_eq_false]
    intro p hp hk
    rw [beq_iff_eq] at hk
    exact h (by simp only [keys, List.mem_map]; exact ⟨p, hp, hk⟩)
  simp [hany]

/-- Keys of an insertion: unchanged on overwrite, extended by the new
key otherwise. -/
theorem keys_set_key (k v : String) (m : KV) :
    keys (set_key k v m) =
      if m.any (fun p => p.1 == k) then keys m else keys m ++ [k] := by
  unfold set_key
  split
  · simp only [keys, List.map_map]
    apply List.map_congr_left
    intro p hp
    by_cases hpk : p.1 = k
    · simp [hpk]
    · simp [hpk]
  · simp [keys]

/-- Insertion preserves distinctness of keys. -/
theorem keys_set_key_nodup (k v : String) (m : KV) (h : (keys m).Nodup) :
    (keys (set_key k v m)).Nodup := by
  rw [keys_set_key]
  split
  · exact h
  · rename_i hany
    rw [List.nodup_append]
    refine ⟨h, List.nodup_singleton k, ?_⟩
    intro a ha hak
    rw [List.mem_singleton] at hak
    subst hak
    rw [Bool.not_eq_true] at hany
    rw [List.any_eq_false] at hany
    simp only [keys, List.mem_map] at ha
    obtain ⟨p, hp, hpa⟩ := ha
    exact hany p hp (by simp [hpa])

/-- Keys of a cons. -/
theorem keys_cons (k v : String) (m : KV) : keys ((k, v) :: m) = k :: keys m := rfl

/-- Keys of an append. -/
theorem keys_append (m1 m2 : KV) : keys (m1 ++ m2) = keys m1 ++ keys m2 :=
  List.map_append _ _ _

/-- Folding the encoded entries of a distinct-key map into an
accumulator disjoint from it appends the map. -/
theorem decodeKVfields_encode (m : KV) (acc : KV) (hnd : (keys m).Nodup)
    (hdisj : ∀ a ∈ keys m, a ∉ keys acc) :
    decodeKVfields (m.map (fun p => (p.1, Json.str p.2))) acc = some (acc ++ m) := by
  induction m generalizing acc with
  | nil => simp [decodeKVfields]
  | cons p rest ih =>
    obtain ⟨k, v⟩ := p
    rw [keys_cons, List.nodup_cons] at hnd
    simp only [List.map_cons, decodeKVfields, decodeStr]
    rw [set_key_notmem k v acc (hdisj k (by rw [keys_cons]; exact List.mem_cons_self k _))]
    have hdisj' : ∀ a ∈ keys rest, a ∉ keys (acc ++ [(k, v)]) := by
      intro a ha
      rw [keys_append, List.mem_append]
      rintro (hmem | hmem)
      · exact hdisj a (by rw [keys_cons]; exact List.mem_cons_of_mem k ha) hmem
      · have hak : a = k := by simpa [keys] using hmem
        subst hak
        exact hnd.1 ha
    rw [ih (acc ++ [(k, v)]) hnd.2 hdisj']
    simp

/-- Decoding the serde encoding of a distinct-key map yields the map
back. -/
theorem decodeKV_encodeKV (m : KV) (h : (keys m).Nodup) :
    decodeKV (encodeKV m) = some m := by
  simpa [decodeKV, encodeKV] using decodeKVfields_encode m [] h (by simp [keys])

/-- Decoding the serde encoding of a hook yields the hook back. -/
theorem decodeHook_encodeHook (h : Hook) : decodeHook (encodeHook h) = some h := by
  obtain ⟨n, c, r, k⟩ := h
  cases r <;> rfl

/-- Decoding an encoded hook list yields the list back, order
preserved. -/
theorem decodeHookList_encode (l : List Hook) :
    decodeHookList (l.map encodeHook) = some l := by
  induction l with
  | nil => rfl
  | cons h rest ih => simp [decodeHookList, decodeHook_encodeHook, ih]

/-- Codec round-trip at the store level (the maps must have distinct
keys, which every `HashMap` has by construction). -/
theorem decodeStore_encodeStore (s : KVStore) (h1 : (keys s.kvs).Nodup)
    (h2 : (keys s.cmds).Nodup) : decodeStore (encodeStore s) = some s := by
  obtain ⟨kvs, cmds, hooks⟩ := s
  simp [decodeStore, encodeStore, jlookup, decodeHooks,
        decodeKV_encodeKV kvs h1, decodeKV_encodeKV cmds h2, decodeHookList_encode]

/-- Decoding a map object always yields a map with distinct keys, since
entries are rebuilt by repeated insertion. -/
theorem decodeKVfields_nodup (fields : List (String × Json)) (acc m : KV)
    (hacc : (keys acc).Nodup) (h : decodeKVfields fields acc = some m) :
    (keys m).Nodup := by
  induction fields generalizing acc with
  | nil =>
    simp only [decodeKVfields, Option.some.injEq] at h
    exact h ▸ hacc
  | cons p rest ih =>
    obtain ⟨k, v⟩ := p
    simp only [decodeKVfields] at h
    cases hv : decodeStr v with
    | none => rw [hv] at h; exact absurd h (by simp)
    | some s =>
      rw [hv] at h
      exact ih (set_key k s acc) (keys_set_key_nodup k s acc hacc) h

/-- Any successfully decoded map has distinct keys. -/
theorem decodeKV_nodup (j : Json) (m : KV) (h : decodeKV j = some m) :
    (keys m).Nodup := by
  cases j with
  | obj fields => exact decodeKVfields_nodup fields [] m (by simp [keys]) h
  | str s => exact absurd h (by simp [decodeKV])
  | arr l => exact absurd h (by simp [decodeKV])

/-- Any successfully decoded store has distinct keys in both maps. -/
theorem decodeStore_nodup (j : Json) (s : KVStore) (h : decodeStore j = some s) :
    (keys s.kvs).Nodup ∧ (keys s.cmds).Nodup := by
  unfold decodeStore at h
  split at h
  · split at h
    · split at h
      · rename_i kvs cmds hooks hkvs hcmds hhooks
        cases h
        exact ⟨decodeKV_nodup _ _ hkvs, decodeKV_nodup _ _ hcmds⟩
      · exact absurd h (by simp)
    · exact absurd h (by simp)
  · exact absurd h (by simp)

/-- The store loaded from any file contents has distinct keys in both
maps (the decoder rebuilds maps by insertion; the default store is
empty). -/
theorem get_store_nodup (file : Option Json) :
    (keys (get_store file).kvs).Nodup ∧ (keys (get_store file).cmds).Nodup := by
  cases file with
  | none => constructor <;> simp [get_store, keys]
  | some j =>
    cases hj : decodeStore j with
    | none => constructor <;> simp [get_store, hj, keys]
    | some s =>
      have hs : get_store (some j) = s := by simp [get_store, hj]
      rw [hs]
      exact decodeStore_nodup j s hj

/-- The loop of `run_hooks` is a map over the matched hooks. -/
theorem runHookLoop_eq_map (cmds : KV) (l : List Hook) :
    runHookLoop cmds l = l.map (fun h =>
      match get_key h.cmd_name cmds with
      | some cmd => Effect.dispatch h.cmd_name cmd
      | none => Effect.badHook h.name) := by
  induction l with
  | nil => rfl
  | cons h rest ih => simp only [runHookLoop, ih, List.map_cons]

/-- C1: for every Store value whose two maps have distinct keys (the
`HashMap` invariant), decoding the encoding yields a Store with
identical KeyValueMap, identical CommandMap and identical hook sequence,
order preserved. -/
theorem C1_round_trip (s : KVStore) (h1 : (keys s.kvs).Nodup)
    (h2 : (keys s.cmds).Nodup) :
    decodeStore (encodeStore s) = some s ∧ get_store (some (encodeStore s)) = s := by
  have hd := decodeStore_encodeStore s h1 h2
  exact ⟨hd, by simp [get_store, hd]⟩

/-- Witness for C1 at a concrete store with entries in all three
components. -/
theorem C1_round_trip_witness :
    (keys (⟨[("color", "blue"), ("size", "2")], [("echo-cmd", "echo hi")],
       [⟨"notify", "echo-cmd", OpType.Set, "color"⟩]⟩ : KVStore).kvs).Nodup ∧
    get_store (some (encodeStore ⟨[("color", "blue"), ("size", "2")],
       [("echo-cmd", "echo hi")],
       [⟨"notify", "echo-cmd", OpType.Set, "color"⟩]⟩)) =
      ⟨[("color", "blue"), ("size", "2")], [("echo-cmd", "echo hi")],
       [⟨"notify", "echo-cmd", OpType.Set, "color"⟩]⟩ :=
  ⟨by decide, (C1_round_trip _ (by decide) (by decide)).2⟩

/-- C2: `run_hooks` produces, in the order of the store's hook sequence,
exactly one effect per hook whose `run_on` equals the current operation
and whose `key` is literally equal to the given key (string equality,
no globbing): the dispatch of its command when the command exists, the
bad-hook report otherwise; no other hook contributes anything. -/
theorem C2_run_hooks_matching (file : Option Json) (key_name : String) (op : OpType) :
    (run_hooks file key_name op).2 =
      ((get_store file).hooks.filter
          (fun x => x.run_on == op && x.key == key_name)).map
        (fun h => match get_key h.cmd_name (get_store file).cmds with
          | some cmd => Effect.dispatch h.cmd_name cmd
          | none => Effect.badHook h.name) :=
  runHookLoop_eq_map _ _

/-- C5: decoding missing, empty or malformed input returns the empty
default store and surfaces no error; structurally valid input returns
the exact parsed store. -/
theorem C5_decode_tolerant :
    get_store none = ⟨[], [], []⟩ ∧
    (∀ j : Json, decodeStore j = none → get_store (some j) = ⟨[], [], []⟩) ∧
    (∀ (j : Json) (s : KVStore), decodeStore j = some s → get_store (some j) = s) := by
  refine ⟨rfl, ?_, ?_⟩
  · intro j hj
    simp [get_store, hj]
  · intro j s hj
    simp [get_store, hj]

/-- Witness for C5 at a concrete malformed input. -/
theorem C5_decode_tolerant_witness :
    decodeStore (Json.arr []) = none ∧
    get_store (some (Json.arr [])) = ⟨[], [], []⟩ :=
  ⟨rfl, C5_decode_tolerant.2.1 (Json.arr []) rfl⟩

/-- C9: the operation-kind type round-trips with its three canonical
lowercase tokens, and parsing any other string fails with the parse
error. -/
theorem C9_optype_token_round_trip :
    (OpType.toString OpType.Get = "get" ∧ OpType.toString OpType.Set = "set" ∧
     OpType.toString OpType.Del = "del") ∧
    (∀ op : OpType, OpType.from_str (OpType.toString op) = Except.ok op) ∧
    (∀ s : String, s ≠ "get" → s ≠ "set" → s ≠ "del" →
      OpType.from_str s = Except.error "No match found!") := by
  refine ⟨⟨rfl, rfl, rfl⟩, ?_, ?_⟩
  · intro op
    cases op <;> rfl
  · intro s h1 h2 h3
    unfold OpType.from_str
    split
    · exact absurd rfl h1
    · exact absurd rfl h2
    · exact absurd rfl h3
    · rfl

/-- Witness for C9 at a concrete non-token string. -/
theorem C9_optype_token_round_trip_witness :
    ("kv" : String) ≠ "get" ∧ OpType.from_str "kv" = Except.error "No match found!" :=
  ⟨by decide, C9_optype_token_round_trip.2.2 "kv" (by decide) (by decide) (by decide)⟩

/-- C3: adding a hook whose name already names a hook is rejected
fatally: the file (hence the persisted hook sequence) is unchanged, no
save happens, the duplicate message is printed, and the process exits
with a non-zero status. -/
theorem C3_duplicate_hook_add_fatal (file : Option Json) (n c k : String) (op : OpType)
    (hdup : 0 < ((get_store file).hooks.filter (fun x => x.name == n)).length) :
    (run file (Request.cmdAddHook n c op k)).file = file ∧
    (run file (Request.cmdAddHook n c op k)).exit = ExitStatus.failure ∧
    saveCount (run file (Request.cmdAddHook n c op k)) = 0 ∧
    (run file (Request.cmdAddHook n c op k)).output = [Effect.errPrinted (dupHookMsg n)] ∧
    get_store (run file (Request.cmdAddHook n c op k)).file = get_store file := by
  simp [run, add_hook, hdup, saveCount]

/-- Witness for C3: a store whose only hook is named "h" rejects a new
hook named "h" with a failure exit. -/
theorem C3_duplicate_hook_add_fatal_witness :
    0 < ((get_store (some (encodeStore ⟨[], [], [⟨"h", "c", OpType.Get, "k"⟩]⟩))).hooks.filter
        (fun x => x.name == "h")).length ∧
    (run (some (encodeStore ⟨[], [], [⟨"h", "c", OpType.Get, "k"⟩]⟩))
        (Request.cmdAddHook "h" "c2" OpType.Set "k2")).exit = ExitStatus.failure :=
  ⟨by decide,
   (C3_duplicate_hook_add_fatal (some (encodeStore ⟨[], [], [⟨"h", "c", OpType.Get, "k"⟩]⟩))
      "h" "c2" "k2" OpType.Set (by decide)).2.1⟩

/-- C4 counterexample: with no hooks at all, removing hook "h" exits
with a non-zero status, refuting the claim that a missing-hook delete
terminates normally with status 0. -/
theorem C4_missing_hook_rm_counterexample :
    (get_store none).hooks = [] ∧
    (run none (Request.cmdDelHook "h")).exit = ExitStatus.failure ∧
    (run none (Request.cmdDelHook "h")).exit ≠ ExitStatus.normal := by
  refine ⟨rfl, rfl, by decide⟩

/-- C4 amended: removing a hook by a nonexistent name leaves the hook
sequence (in memory and persisted) unchanged, prints the error message,
performs no save — but the error is fatal: the process exits with a
non-zero status, not status 0. -/
theorem C4_missing_hook_rm_fatal (file : Option Json) (n : String)
    (hmiss : (get_store file).hooks.findIdx? (fun x => x.name == n) = none) :
    (run file (Request.cmdDelHook n)).file = file ∧
    (run file (Request.cmdDelHook n)).exit = ExitStatus.failure ∧
    saveCount (run file (Request.cmdDelHook n)) = 0 ∧
    (run file (Request.cmdDelHook n)).output = [Effect.errPrinted (missingHookMsg n)] ∧
    get_store (run file (Request.cmdDelHook n)).file = get_store file := by
  simp [run, rm_hook, hmiss, saveCount]

/-- Witness for C4's amended theorem on the empty store. -/
theorem C4_missing_hook_rm_fatal_witness :
    (get_store none).hooks.findIdx? (fun x => x.name == "h") = none ∧
    (run none (Request.cmdDelHook "h")).file = none :=
  ⟨rfl, (C4_missing_hook_rm_fatal none "h" rfl).1⟩

/-- C6: every matched hook whose command name is absent from the
CommandMap contributes the bad-hook report, and every matched hook still
contributes exactly one effect (so later matches are not skipped);
concretely, a get on an absent key with one dangling hook prints the
empty result followed by the bad-hook report and exits normally. -/
theorem C6_bad_hook_nonfatal :
    (∀ (file : Option Json) (k : String) (op : OpType) (h : Hook),
      h ∈ (get_store file).hooks → h.run_on = op → h.key = k →
      get_key h.cmd_name (get_store file).cmds = none →
      Effect.badHook h.name ∈ (run_hooks file k op).2 ∧
      (run_hooks file k op).2.length =
        ((get_store file).hooks.filter (fun x => x.run_on == op && x.key == k)).length) ∧
    ((run (some (encodeStore ⟨[], [], [⟨"h1", "missing-cmd", OpType.Get, "x"⟩]⟩))
        (Request.get "x")).output =
      [Effect.printRes none, Effect.badHook "h1"] ∧
     (run (some (encodeStore ⟨[], [], [⟨"h1", "missing-cmd", OpType.Get, "x"⟩]⟩))
        (Request.get "x")).exit = ExitStatus.normal) := by
  constructor
  · intro file k op h hmem hop hkey hcmd
    have hloop : (run_hooks file k op).2 =
        ((get_store file).hooks.filter (fun x => x.run_on == op && x.key == k)).map
          (fun h => match get_key h.cmd_name (get_store file).cmds with
            | some cmd => Effect.dispatch h.cmd_name cmd
            | none => Effect.badHook h.name) :=
      runHookLoop_eq_map _ _
    constructor
    · have hmem' : h ∈ (get_store file).hooks.filter
          (fun x => x.run_on == op && x.key == k) := by
        rw [List.mem_filter]
        exact ⟨hmem, by simp [hop, hkey]⟩
      rw [hloop]
      rw [List.mem_map]
      refine ⟨h, hmem', ?_⟩
      simp [hcmd]
    · rw [hloop, List.length_map]
  · constructor <;> rfl

/-- Witness for the universally quantified part of C6 at the concrete
dangling-hook store. -/
theorem C6_bad_hook_nonfatal_witness :
    (⟨"h1", "missing-cmd", OpType.Get, "x"⟩ : Hook) ∈
      (get_store (some (encodeStore ⟨[], [],
        [⟨"h1", "missing-cmd", OpType.Get, "x"⟩]⟩))).hooks ∧
    Effect.badHook "h1" ∈
      (run_hooks (some (encodeStore ⟨[], [],
        [⟨"h1", "missing-cmd", OpType.Get, "x"⟩]⟩)) "x" OpType.Get).2 :=
  ⟨by decide,
   (C6_bad_hook_nonfatal.1 (some (encodeStore ⟨[], [],
      [⟨"h1", "missing-cmd", OpType.Get, "x"⟩]⟩)) "x" OpType.Get
      ⟨"h1", "missing-cmd", OpType.Get, "x"⟩ (by decide) rfl rfl (by decide)).1⟩

/-- Loading back an encoded distinct-key store yields the store. -/
theorem get_store_encode (s : KVStore) (h1 : (keys s.kvs).Nodup)
    (h2 : (keys s.cmds).Nodup) : get_store (some (encodeStore s)) = s := by
  have hd := decodeStore_encodeStore s h1 h2
  simp [get_store, hd]

/-- Decoding the file saved by the `set` branch yields exactly the
mutated in-memory store. -/
theorem get_store_run_set (file : Option Json) (k v : String) :
    get_store (run file (Request.set k v)).file = mutatedSet (get_store file) k v := by
  show get_store (some (encodeStore (mutatedSet (get_store file) k v))) = _
  exact get_store_encode _ (keys_set_key_nodup k v _ (get_store_nodup file).1)
    (get_store_nodup file).2

/-- Decoding the file saved by the `del` branch yields exactly the
mutated in-memory store. -/
theorem get_store_run_del (file : Option Json) (k : String) :
    get_store (run file (Request.del k)).file = mutatedDel (get_store file) k := by
  have h1 : (keys (mutatedDel (get_store file) k).kvs).Nodup := by
    have hsub : List.Sublist (keys ((get_store file).kvs.filter (fun p => !(p.1 == k))))
        (keys (get_store file).kvs) :=
      List.Sublist.map Prod.fst (List.filter_sublist _)
    exact (get_store_nodup file).1.sublist hsub
  show get_store (some (encodeStore (mutatedDel (get_store file) k))) = _
  exact get_store_encode _ h1 (get_store_nodup file).2

/-- Decoding the file saved by the `cmd add` branch yields exactly the
mutated in-memory store. -/
theorem get_store_run_cmdAdd (file : Option Json) (n val : String) :
    get_store (run file (Request.cmdAdd n val)).file =
      mutatedCmdAdd (get_store file) n val := by
  show get_store (some (encodeStore (mutatedCmdAdd (get_store file) n val))) = _
  exact get_store_encode _ (get_store_nodup file).1
    (keys_set_key_nodup n val _ (get_store_nodup file).2)

/-- C7: hooks are resolved against a snapshot loaded fresh at trigger
time.  For `set`: the engine load comes after the dispatcher save in
the repository trace, the output is exactly the hook effects computed
from the file as saved, and the snapshot decoded at trigger time equals
the mutated store this same invocation just persisted (everything saved
before the trigger is visible to `run_hooks`); the same visibility
holds for `del`, and `get` triggers against the file it loaded. -/
theorem C7_fresh_snapshot (file : Option Json) (k v : String) :
    ((run file (Request.set k v)).repo =
       [(Component.dispatcher, RepoAction.load), (Component.dispatcher, RepoAction.save),
        (Component.engine, RepoAction.load)] ∧
     (run file (Request.set k v)).file =
       some (encodeStore (mutatedSet (get_store file) k v)) ∧
     (run file (Request.set k v)).output =
       (run_hooks (run file (Request.set k v)).file k OpType.Set).2 ∧
     get_store (run file (Request.set k v)).file = mutatedSet (get_store file) k v) ∧
    (get_store (run file (Request.del k)).file = mutatedDel (get_store file) k) ∧
    ((run file (Request.get k)).output =
       Effect.printRes (get_key k (get_store file).kvs) :: (run_hooks file k OpType.Get).2) :=
  ⟨⟨rfl, rfl, rfl, get_store_run_set file k v⟩, get_store_run_del file k, rfl⟩

/-- C10: `set` and `del` mutate only the KeyValueMap — the CommandMap
and hook sequence of the in-memory store and of the persisted store are
unchanged; `cmd add` mutates only the CommandMap, leaving the
KeyValueMap and hook sequence unchanged. -/
theorem C10_mutation_frame (file : Option Json) (k v : String) :
    ((mutatedSet (get_store file) k v).cmds = (get_store file).cmds ∧
     (mutatedSet (get_store file) k v).hooks = (get_store file).hooks ∧
     (get_store (run file (Request.set k v)).file).cmds = (get_store file).cmds ∧
     (get_store (run file (Request.set k v)).file).hooks = (get_store file).hooks) ∧
    ((mutatedDel (get_store file) k).cmds = (get_store file).cmds ∧
     (mutatedDel (get_store file) k).hooks = (get_store file).hooks ∧
     (get_store (run file (Request.del k)).file).cmds = (get_store file).cmds ∧
     (get_store (run file (Request.del k)).file).hooks = (get_store file).hooks) ∧
    ((mutatedCmdAdd (get_store file) k v).kvs = (get_store file).kvs ∧
     (mutatedCmdAdd (get_store file) k v).hooks = (get_store file).hooks ∧
     (get_store (run file (Request.cmdAdd k v)).file).kvs = (get_store file).kvs ∧
     (get_store (run file (Request.cmdAdd k v)).file).hooks = (get_store file).hooks) := by
  refine ⟨⟨?_, ?_, ?_, ?_⟩, ⟨?_, ?_, ?_, ?_⟩, ⟨?_, ?_, ?_, ?_⟩⟩
  · rfl
  · rfl
  · rw [get_store_run_set]; rfl
  · rw [get_store_run_set]; rfl
  · rfl
  · rfl
  · rw [get_store_run_del]; rfl
  · rw [get_store_run_del]; rfl
  · rfl
  · rfl
  · rw [get_store_run_cmdAdd]; rfl
  · rw [get_store_run_cmdAdd]; rfl

/-- C8 counterexample: a listing request makes the dispatcher itself
perform two repository loads (one at `run` entry and one inside the
`list` branch), refuting "exactly one Repository load". -/
theorem C8_single_load_counterexample :
    dispatcherLoads (run none (Request.list none)) = 2 ∧
    dispatcherLoads (run none (Request.list none)) ≠ 1 := by
  exact ⟨by decide, by decide⟩

/-- C8 amended: the dispatcher performs exactly one repository load for
every request except the listing requests, which perform a second one;
over the whole invocation at most one save happens, and pure reads
(Get, RunCommand and the listings) perform no save and leave the file
unchanged. -/
theorem C8_repo_discipline (file : Option Json) (req : Request) :
    dispatcherLoads (run file req) = (if req.isList then 2 else 1) ∧
    saveCount (run file req) ≤ 1 ∧
    (req.isPureRead = true →
      saveCount (run file req) = 0 ∧ (run file req).file = file) := by
  cases req with
  | get key =>
    exact ⟨rfl, Nat.zero_le 1, fun _ => ⟨rfl, rfl⟩⟩
  | set key val =>
    exact ⟨rfl, Nat.le_refl 1, fun h => by simp [Request.isPureRead] at h⟩
  | del key =>
    exact ⟨rfl, Nat.le_refl 1, fun h => by simp [Request.isPureRead] at h⟩
  | list what =>
    exact ⟨rfl, Nat.zero_le 1, fun _ => ⟨rfl, rfl⟩⟩
  | cmdRun name =>
    cases hget : get_key name (get_store file).cmds with
    | some vv =>
      refine ⟨?_, ?_, fun _ => ⟨?_, ?_⟩⟩ <;>
        simp [run, hget, dispatcherLoads, saveCount, Request.isList]
    | none =>
      refine ⟨?_, ?_, fun _ => ⟨?_, ?_⟩⟩ <;>
        simp [run, hget, dispatcherLoads, saveCount, Request.isList]
  | cmdAdd name val =>
    exact ⟨rfl, Nat.le_refl 1, fun h => by simp [Request.isPureRead] at h⟩
  | cmdDelHook name =>
    cases hidx : (get_store file).hooks.findIdx? (fun x => x.name == name) with
    | some pos =>
      refine ⟨?_, ?_, fun h => by simp [Request.isPureRead] at h⟩ <;>
        simp [run, rm_hook, hidx, dispatcherLoads, saveCount, Request.isList]
    | none =>
      refine ⟨?_, ?_, fun h => by simp [Request.isPureRead] at h⟩ <;>
        simp [run, rm_hook, hidx, dispatcherLoads, saveCount, Request.isList]
  | cmdAddHook name cmdName trigger key =>
    by_cases hdup : 0 < ((get_store file).hooks.filter (fun x => x.name == name)).length
    · refine ⟨?_, ?_, fun h => by simp [Request.isPureRead] at h⟩ <;>
        simp [run, add_hook, hdup, dispatcherLoads, saveCount, Request.isList]
    · refine ⟨?_, ?_, fun h => by simp [Request.isPureRead] at h⟩ <;>
        simp [run, add_hook, hdup, dispatcherLoads, saveCount, Request.isList]

/-- Witness for C8's amended theorem at a concrete pure read. -/
theorem C8_repo_discipline_witness :
    saveCount (run none (Request.get "k")) = 0 ∧ (run none (Request.get "k")).file = none :=
  (C8_repo_discipline none (Request.get "k")).2.2 rfl

end Kv
